import Mathlib

/-! Verification of the interactive command shell of the eigenvalue
repository: the command registry, the completion engine, the dispatcher and
the history store of ev-prompt.c, together with the startup-time command
registration driven by ev-application.c.  C strings are modelled as lists of
characters, the GLib/libedit calls by their documented behaviour. -/

namespace Ev

/-- Strings of the C sources (NUL-free) are modelled as lists of characters. -/
abbrev Str := List Char

/-- Truncating conversion of a C int to size_t, performed implicitly whenever
an int is compared with or passed as a size_t. -/
def cSizeT (p : Int) : Nat := (p % (2 ^ 64 : Int)).toNat

/-- Boolean rendering of strncmp (a, b, n) == 0: the first n characters
agree, where the end of either list plays the role of the terminating NUL. -/
def strncmpEq : Str → Str → Nat → Bool
  | _, _, 0 => true
  | [], [], _ + 1 => true
  | [], _ :: _, _ + 1 => false
  | _ :: _, [], _ + 1 => false
  | a :: as, b :: bs, n + 1 => a == b && strncmpEq as bs n

/-- EvCmdOpt of ev-prompt.h: one positional option of a command.  A completer,
when present, maps a word and an offset to a candidate list; a NULL GStrv
result is Option.none. -/
structure EvCmdOpt where
  name : Str
  desc : Str
  optional : Bool
  completer : Option (Str → Int → Option (List Str))

/-- EvCmd of ev-prompt.h: a named slash command.  The handler func returns the
GString output (none models a NULL return) paired with the GError it may have
set. -/
structure EvCmd where
  name : Str
  help_summary : Str
  func : List Str → Option Str × Option Str
  opts : Option (List EvCmdOpt)

/-- Function ev_cmds_get of ev-prompt.c: linear scan of the registry for the
first command whose name matches exactly. -/
def ev_cmds_get (cmds : List EvCmd) (command : Str) : Option EvCmd :=
  cmds.find? (fun c => c.name == command)

/-- Function ev_cmd_get_opt of ev-prompt.c: the option at index num of the
named command, walking the sentinel-terminated option array; none when the
command does not resolve, declares no options, or num is past the end. -/
def ev_cmd_get_opt (cmds : List EvCmd) (command : Str) (num : Nat) : Option EvCmdOpt :=
  match ev_cmds_get cmds command with
  | none => none
  | some cmd =>
    match cmd.opts with
    | none => none
    | some opts => opts.get? num

/-- Function complete_command of ev-prompt.c: NULL unless the word starts with
the command marker; otherwise the marker is skipped (word++, pos--) and every
registered name not shorter than pos whose first pos characters equal the
word's is offered, re-prefixed with the marker.  pos is an int; its uses as a
size_t go through cSizeT. -/
def complete_command (cmds : List EvCmd) (word : Str) (pos : Int) : Option (List Str) :=
  match word with
  | [] => none
  | ch :: w =>
    if ch = '/' then
      some ((cmds.filter
        (fun c => decide (cSizeT (pos - 1) ≤ c.name.length) &&
          strncmpEq c.name w (cSizeT (pos - 1)))).map
        (fun c => '/' :: c.name))
    else none

/-- Line buffer and cursor of the editing widget: the part of the EditLine
state the completion insertion path touches. -/
structure ElState where
  buf : Str
  cursor : Nat
deriving DecidableEq

/-- Behaviour of libedit's el_insertstr as documented: inserts the string at
the cursor, failing (returning -1, here none) when the string is empty. -/
def el_insertstr (st : ElState) (s : Str) : Option ElState :=
  if s = [] then none
  else some ⟨st.buf.take st.cursor ++ s ++ st.buf.drop st.cursor, st.cursor + s.length⟩

/-- Completion return codes handed back to libedit. -/
inductive CCode where
  | error
  | refresh
  | redisplay
deriving DecidableEq

/-- Text printed by the candidate loop of print_or_insert_completions: each
candidate followed by one space. -/
def printEach : List Str → Str
  | [] => []
  | c :: cs => c ++ ' ' :: printEach cs

/-- Function print_or_insert_completions of ev-prompt.c: several candidates
are printed between line breaks and the display refreshed; a single one has
its tail from offset pos inserted, then a space; otherwise CC_ERROR.  The
result is the editor state, the text printed and the return code. -/
def print_or_insert_completions (st : ElState) (completions : Option (List Str))
    (pos : Nat) : ElState × Str × CCode :=
  match completions with
  | some cs =>
    if cs.length ≠ 0 then
      if cs.length > 1 then
        (st, '\n' :: (printEach cs ++ ['\n']), CCode.redisplay)
      else
        match cs with
        | [] => (st, [], CCode.error)
        | c :: _ =>
          match el_insertstr st (c.drop pos) with
          | none => (st, [], CCode.error)
          | some st1 => ((el_insertstr st1 [' ']).getD st1, [], CCode.refresh)
    else (st, [], CCode.error)
  | none => (st, [], CCode.error)

/-- Outcome of one completion request: the completer invocations made (command
name, option index, word and offset arguments), the candidate list obtained,
the final editor state, the text printed and the code returned. -/
structure CompleteResult where
  invoked : List (Str × Nat × Str × Nat)
  candidates : Option (List Str)
  st : ElState
  printed : Str
  ret : CCode
deriving DecidableEq

/-- Function complete of ev-prompt.c on an already tokenized line: av are the
tokens, cc the token index of the cursor and co its offset inside that token.
With at most one token and the cursor in the first, command names are
completed; otherwise the first token minus its first character selects the
command whose option cc - 1 supplies the completer. -/
def complete (cmds : List EvCmd) (st : ElState) (av : List Str) (cc co : Nat) :
    CompleteResult :=
  let ac := av.length
  if ac < 2 ∧ cc = 0 then
    let w := if cc ≥ ac then [] else av.getD cc []
    let cands := complete_command cmds w (co : Int)
    let pr := print_or_insert_completions st cands co
    ⟨[], cands, pr.1, pr.2.1, pr.2.2⟩
  else if ac = 0 ∨ cc = 0 then ⟨[], none, st, [], CCode.error⟩
  else
    match av with
    | [] => ⟨[], none, st, [], CCode.error⟩
    | a :: _ =>
      match ev_cmd_get_opt cmds (a.drop 1) (cc - 1) with
      | none => ⟨[], none, st, [], CCode.error⟩
      | some opt =>
        match opt.completer with
        | none => ⟨[], none, st, [], CCode.error⟩
        | some f =>
          let w := if cc ≥ ac then [] else av.getD cc []
          let cands := f w (co : Int)
          let pr := print_or_insert_completions st cands co
          ⟨[(a.drop 1, cc - 1, w, co)], cands, pr.1, pr.2.1, pr.2.2⟩

/-- ANSI sequence switching the foreground to red, printed before error text
by run_command. -/
def escRed : Str := "\x1b[31m".toList

/-- ANSI sequence restoring the default foreground. -/
def escDefault : Str := "\x1b[39m".toList

/-- Outcome of dispatching one line: the name of the command whose handler
ran, if any, and the text printed. -/
structure RunResult where
  invoked : Option Str
  printed : Str
deriving DecidableEq

/-- Function run_command of ev-prompt.c: the first registered command whose
name equals the first token minus its marker runs on the remaining tokens; a
non-NULL non-empty output is printed between line breaks, an empty one prints
nothing, a NULL output prints the error (or an internal-error notice when no
error was set) in red; with no match an unknown-command message is printed.
The empty-av case is unreachable from the caller, which checks av[0]. -/
def run_command (cmds : List EvCmd) (av : List Str) : RunResult :=
  match av with
  | [] => ⟨none, []⟩
  | a :: rest =>
    match cmds.find? (fun c => c.name == a.drop 1) with
    | some c =>
      match c.func rest with
      | (some out, _) =>
        ⟨some c.name, if out.length ≠ 0 then '\n' :: (out ++ ['\n']) else []⟩
      | (none, some m) =>
        ⟨some c.name, escRed ++ ("Command failed: ".toList ++ (m ++ ('\n' :: escDefault)))⟩
      | (none, none) =>
        ⟨some c.name,
          escRed ++ ("Internal error - Command failed to set error\n".toList ++ escDefault)⟩
    | none => ⟨none, '\n' :: ("Unknown command '".toList ++ (a.drop 1 ++ "'\n".toList))⟩

/-- Operation H_ENTER of libedit's history as configured by ev_prompt_init
(H_SETUNIQUE 1, H_SETSIZE cap), most recent entry first: with the unique flag
set a line identical to the most recent entry is not entered at all;
otherwise the line becomes most recent and the oldest entries are dropped
while the store exceeds cap. -/
def histEnter (cap : Nat) (h : List Str) (line : Str) : List Str :=
  if h.head? = some line then h
  else (line :: h).take cap

/-- Outcome of on_stdin_ready on one complete line: the history store after
the call, the dispatch performed, and whether the widget state was reset. -/
structure StdinResult where
  hist : List Str
  ran : Option RunResult
  reset : Bool
deriving DecidableEq

/-- Function on_stdin_ready of ev-prompt.c once a full line has accumulated:
buf is the line including its trailing newline, tokRes its tokenization (none
models a tok_line failure).  A failed parse or an empty buffer skips straight
to the reset; otherwise a buffer of more than one character is entered into
the 100-entry history, and a first token starting with the marker is
dispatched through run_command.  The widget state is reset in every case. -/
def on_stdin_ready (cmds : List EvCmd) (h : List Str) (buf : Str)
    (tokRes : Option (List Str)) : StdinResult :=
  match tokRes with
  | none => ⟨h, none, true⟩
  | some av =>
    if buf.length = 0 then ⟨h, none, true⟩
    else
      ⟨if 1 < buf.length then histEnter 100 h buf else h,
       match av.head? with
       | some a => if a.head? = some '/' then some (run_command cmds av) else none
       | none => none,
       true⟩

/-- History stores reachable in a session that starts empty (no history file
on disk) and steps through on_stdin_ready. -/
inductive ReachableHist : List Str → Prop where
  | start : ReachableHist []
  | step (cmds : List EvCmd) (buf : Str) (tokRes : Option (List Str)) {h : List Str} :
      ReachableHist h → ReachableHist (on_stdin_ready cmds h buf tokRes).hist

/-- Registration of one contributor's static command array into the shared
registry, as ev_prompt_add_commands and ev_matrix_add_commands both do:
g_ptr_array_add of each descriptor in order, with no duplicate-name check. -/
def add_commands (registry contrib : List EvCmd) : List EvCmd :=
  registry ++ contrib

/-- Effect of ev_prompt_init on the registry: the assertion g_assert
(!commands) rejects only a second initialisation (none); otherwise the
assembled command array is adopted unchanged. -/
def ev_prompt_init (already : Option (List EvCmd)) (commands_ : List EvCmd) :
    Option (List EvCmd) :=
  match already with
  | some _ => none
  | none => some commands_

/-- Concrete command used to instantiate the theorems: named help, handler
returning an empty success, no options. -/
def sampleHelp : EvCmd :=
  ⟨"help".toList, "Show this help".toList, fun _ => (some [], none), none⟩

/-- Concrete command named history with no options. -/
def sampleHistory : EvCmd :=
  ⟨"history".toList, "Print command history".toList, fun _ => (some [], none), none⟩

/-- Concrete completer returning one fixed candidate whatever the input. -/
def sampleCompleter : Str → Int → Option (List Str) :=
  fun _ _ => some ["!abc:example.org".toList]

/-- Concrete option carrying sampleCompleter. -/
def sampleRoomIdOpt : EvCmdOpt :=
  ⟨"room-id".toList, "The room id".toList, false, some sampleCompleter⟩

/-- Concrete command with one completable option. -/
def sampleRoomDetails : EvCmd :=
  ⟨"room-details".toList, "Get details about a room".toList,
    fun _ => (some [], none), some [sampleRoomIdOpt]⟩

/-- Concrete command whose handler fails and sets an error. -/
def sampleFailErr : EvCmd :=
  ⟨"fail".toList, [], fun _ => (none, some "boom".toList), none⟩

/-- Concrete command whose handler fails without setting an error. -/
def sampleFailSilent : EvCmd :=
  ⟨"bad".toList, [], fun _ => (none, none), none⟩

/-- Concrete command whose handler returns an empty output buffer. -/
def sampleEmptyOut : EvCmd :=
  ⟨"ok".toList, [], fun _ => (some [], none), none⟩

/-- Lemma relating the strncmp embedding to list truncation: the comparison
succeeds over n characters exactly when the two n-prefixes agree. -/
theorem strncmpEq_iff (a b : Str) (n : Nat) : strncmpEq a b n = true ↔ a.take n = b.take n := by
  induction a generalizing b n with
  | nil => cases b <;> cases n <;> simp [strncmpEq]
  | cons x xs ih => cases b <;> cases n <;> simp [strncmpEq, ih]

/-- Lemma turning the per-command test of complete_command (length guard plus
strncmp over the first n characters) into a prefix equation, valid whenever n
does not exceed the typed word's length. -/
theorem compl_pred_eq (c : EvCmd) (w : Str) (n : Nat) (hn : n ≤ w.length) :
    (decide (n ≤ c.name.length) && strncmpEq c.name w n) =
      decide (c.name.take n = w.take n) := by
  rw [Bool.eq_iff_iff]
  simp only [Bool.and_eq_true, decide_eq_true_eq, strncmpEq_iff]
  constructor
  · rintro ⟨_, h⟩
    exact h
  · intro h
    refine ⟨?_, h⟩
    have hl := congrArg List.length h
    simp only [List.length_take] at hl
    rw [Nat.min_eq_left hn] at hl
    exact min_eq_left_iff.mp hl

/-- Lemma evaluating the int-to-size_t conversion of pos - 1 for an in-range
positive cursor offset. -/
theorem cSizeT_sub_one (co : Nat) (h1 : 1 ≤ co) (h3 : co < 2 ^ 31) :
    cSizeT ((co : Int) - 1) = co - 1 := by
  simp only [cSizeT]
  omega

/-- Claim C1: on a line consisting of a single token that begins with the
command marker, completion with the cursor inside the token (at offset co at
least 1) offers exactly the registered commands whose names extend the typed
text after the marker, compared over exactly the typed prefix length co - 1;
with an empty typed text (co = 1) every registered command is offered. -/
theorem cmd_name_completion_spec (cmds : List EvCmd) (st : ElState) (w : Str) (co : Nat)
    (hw : w.head? = some '/') (h1 : 1 ≤ co) (h2 : co ≤ w.length) (h3 : co < 2 ^ 31) :
    (complete cmds st [w] 0 co).candidates =
      some ((cmds.filter
        (fun c => decide (c.name.take (co - 1) = (w.drop 1).take (co - 1)))).map
        (fun c => '/' :: c.name)) ∧
    (co = 1 → (complete cmds st [w] 0 co).candidates =
      some (cmds.map (fun c => '/' :: c.name))) := by
  cases w with
  | nil => simp at hw
  | cons ch w =>
    simp only [List.head?] at hw
    injection hw with hch
    subst hch
    have hlen : co - 1 ≤ w.length := by
      simp only [List.length_cons] at h2
      omega
    have hmain : (complete cmds st ['/' :: w] 0 co).candidates =
        some ((cmds.filter
          (fun c => decide (c.name.take (co - 1) = w.take (co - 1)))).map
          (fun c => '/' :: c.name)) := by
      simp only [complete, List.length_cons, List.length_nil, complete_command,
        if_pos, List.getD]
      norm_num
      rw [cSizeT_sub_one co h1 h3]
      rw [List.filter_congr (fun c _ => compl_pred_eq c w (co - 1) hlen)]
    refine ⟨by simpa using hmain, fun hco => ?_⟩
    subst hco
    simp only [Nat.sub_self, List.take_zero] at hmain
    simpa [List.filter_true] using hmain

/-- Claim C10: a completion request on a line of at most one token whose
first token does not begin with the command marker (in particular the empty
line, whose word is the empty string) yields no candidates, returns CC_ERROR,
prints nothing and leaves the editor state unchanged. -/
theorem nonmarker_completion_spec (cmds : List EvCmd) (st : ElState) (av : List Str)
    (co : Nat) (h1 : av.length < 2) (h2 : ∀ (a : Str) (r : List Str), av = a :: r → a.head? ≠ some '/') :
    complete cmds st av 0 co = ⟨[], none, st, [], CCode.error⟩ := by
  match av with
  | [] => simp [complete, complete_command, print_or_insert_completions]
  | [a] =>
    cases a with
    | nil => simp [complete, complete_command, print_or_insert_completions, List.getD]
    | cons ch t =>
      have hch : ¬ ch = '/' := by
        intro h
        exact h2 (ch :: t) [] rfl (by simp [h])
      simp [complete, complete_command, hch, print_or_insert_completions, List.getD]
  | a :: b :: r => simp only [List.length_cons] at h1; omega

/-- Claim C2: with the cursor in token cc at least 1, only the completer of
the resolved command's option cc - 1 is invoked, receiving the word under the
cursor and the cursor's offset, and its result becomes the candidate set
verbatim; when the command does not resolve, the option does not exist or it
has no completer, no completer is invoked and there are no candidates. -/
theorem option_completion_spec (cmds : List EvCmd) (st : ElState) (a : Str)
    (rest : List Str) (cc co : Nat) (hcc : 1 ≤ cc) (_ha : a.head? = some '/') :
    (∀ opt f, ev_cmd_get_opt cmds (a.drop 1) (cc - 1) = some opt →
      opt.completer = some f →
      (complete cmds st (a :: rest) cc co).invoked =
        [(a.drop 1, cc - 1,
          if cc ≥ (a :: rest).length then ([] : Str) else (a :: rest).getD cc ([] : Str), co)] ∧
      (complete cmds st (a :: rest) cc co).candidates =
        f (if cc ≥ (a :: rest).length then ([] : Str) else (a :: rest).getD cc ([] : Str)) (co : Int)) ∧
    (∀ opt, ev_cmd_get_opt cmds (a.drop 1) (cc - 1) = some opt →
      opt.completer = none →
      (complete cmds st (a :: rest) cc co).invoked = [] ∧
      (complete cmds st (a :: rest) cc co).candidates = none) ∧
    (ev_cmd_get_opt cmds (a.drop 1) (cc - 1) = none →
      (complete cmds st (a :: rest) cc co).invoked = [] ∧
      (complete cmds st (a :: rest) cc co).candidates = none) := by
  have hcc0 : ¬ cc = 0 := by omega
  refine ⟨?_, ?_, ?_⟩
  · intro opt f hopt hf
    rw [List.drop_one] at hopt
    simp [complete, hcc0, hopt, hf]
  · intro opt hopt hf
    rw [List.drop_one] at hopt
    simp [complete, hcc0, hopt, hf]
  · intro hopt
    rw [List.drop_one] at hopt
    simp [complete, hcc0, hopt]

/-- Claim C3 (amended): zero candidates (NULL or empty) signal CC_ERROR with
no screen change; two or more leave the buffer untouched, print the
candidates between line breaks and request a redisplay; a single candidate
with a non-empty suffix past the cursor offset inserts that suffix plus one
trailing space at the cursor, leaving the rest of the line unchanged, and
refreshes; a single fully-typed candidate (empty suffix) signals CC_ERROR
with nothing inserted, because el_insertstr rejects an empty string. -/
theorem print_or_insert_spec (st : ElState) (pos : Nat) :
    (print_or_insert_completions st none pos = (st, [], CCode.error)) ∧
    (print_or_insert_completions st (some []) pos = (st, [], CCode.error)) ∧
    (∀ cs : List Str, 1 < cs.length → print_or_insert_completions st (some cs) pos =
      (st, '\n' :: (printEach cs ++ ['\n']), CCode.redisplay)) ∧
    (∀ c : Str, c.length ≤ pos →
      print_or_insert_completions st (some [c]) pos = (st, [], CCode.error)) ∧
    (∀ c : Str, pos < c.length → st.cursor ≤ st.buf.length →
      print_or_insert_completions st (some [c]) pos =
        (⟨st.buf.take st.cursor ++ (c.drop pos ++ [' ']) ++ st.buf.drop st.cursor,
          st.cursor + (c.length - pos) + 1⟩, [], CCode.refresh)) := by
  refine ⟨rfl, rfl, ?_, ?_, ?_⟩
  · intro cs hcs
    match cs, hcs with
    | c1 :: c2 :: cs, _ => simp [print_or_insert_completions]
  · intro c hc
    have hnil : c.drop pos = [] := List.drop_eq_nil_of_le hc
    simp [print_or_insert_completions, el_insertstr, hnil]
  · intro c hc hcur
    have hnil : ¬ c.drop pos = [] := by
      intro h
      have h2 := List.drop_eq_nil_iff.mp h
      omega
    have hA : (st.buf.take st.cursor).length = st.cursor := by
      simp [List.length_take, Nat.min_eq_left hcur]
    have key1 : ∀ (A B C : Str) (n : Nat), A.length = n →
        (A ++ B ++ C).take (n + B.length) = A ++ B := by
      intro A B C n hn
      subst hn
      rw [List.append_assoc, List.take_append, List.take_left]
    have key2 : ∀ (A B C : Str) (n : Nat), A.length = n →
        (A ++ B ++ C).drop (n + B.length) = C := by
      intro A B C n hn
      subst hn
      rw [List.append_assoc, List.drop_append, List.drop_left]
    have h1 : el_insertstr st (c.drop pos) =
        some ⟨st.buf.take st.cursor ++ c.drop pos ++ st.buf.drop st.cursor,
          st.cursor + (c.drop pos).length⟩ := by
      simp [el_insertstr, hnil]
    have h2 : el_insertstr
        ⟨st.buf.take st.cursor ++ c.drop pos ++ st.buf.drop st.cursor,
          st.cursor + (c.drop pos).length⟩ [' '] =
        some ⟨st.buf.take st.cursor ++ (c.drop pos ++ [' ']) ++ st.buf.drop st.cursor,
          st.cursor + (c.drop pos).length + 1⟩ := by
      have t1 := key1 (st.buf.take st.cursor) (c.drop pos) (st.buf.drop st.cursor)
        st.cursor hA
      have t2 := key2 (st.buf.take st.cursor) (c.drop pos) (st.buf.drop st.cursor)
        st.cursor hA
      simp only [el_insertstr]
      rw [if_neg (by simp)]
      rw [t1, t2]
      simp [List.append_assoc]
    have hdlen : (c.drop pos).length = c.length - pos := by simp
    rw [hdlen] at h1 h2
    simp only [List.append_assoc, List.singleton_append] at h1 h2
    simp [print_or_insert_completions, h1, h2]

/-- Claim C5: a submitted buffer (the line including its trailing newline)
of at most one character leaves the history store untouched; only buffers of
more than one character are entered into the store. -/
theorem record_short_line_spec (cmds : List EvCmd) (h : List Str) (buf : Str)
    (av : List Str) :
    (buf.length ≤ 1 → (on_stdin_ready cmds h buf (some av)).hist = h) ∧
    (1 < buf.length → (on_stdin_ready cmds h buf (some av)).hist = histEnter 100 h buf) := by
  constructor
  · intro hb
    by_cases h0 : buf.length = 0
    · simp [on_stdin_ready, h0]
    · have h1 : ¬ 1 < buf.length := by omega
      simp [on_stdin_ready, h0, h1]
  · intro hb
    have h0 : ¬ buf.length = 0 := by omega
    simp [on_stdin_ready, h0, hb]

/-- Claim C4 (amended): a submitted line that is empty or whose first token
does not begin with the command marker dispatches no command and still resets
the widget state; the empty line leaves the history unchanged, but a
non-marker line of more than one character is still recorded. -/
theorem submit_nonmarker_spec (cmds : List EvCmd) (h : List Str) (buf : Str)
    (av : List Str)
    (hnm : buf = [] ∨ ∀ (a : Str) (r : List Str), av = a :: r → a.head? ≠ some '/') :
    (on_stdin_ready cmds h buf (some av)).ran = none ∧
    (on_stdin_ready cmds h buf (some av)).reset = true ∧
    (buf = [] → (on_stdin_ready cmds h buf (some av)).hist = h) ∧
    (1 < buf.length → (on_stdin_ready cmds h buf (some av)).hist = histEnter 100 h buf) := by
  rcases hnm with hb | hm
  · subst hb
    simp [on_stdin_ready]
  · by_cases h0 : buf.length = 0
    · have hb : buf = [] := List.length_eq_zero.mp h0
      subst hb
      simp [on_stdin_ready]
    · refine ⟨?_, ?_, ?_, ?_⟩
      · cases av with
        | nil => simp [on_stdin_ready, h0]
        | cons a r =>
          have := hm a r rfl
          simp [on_stdin_ready, h0, this]
      · cases av with
        | nil => simp [on_stdin_ready, h0]
        | cons a r => simp [on_stdin_ready, h0]
      · intro hb
        exact absurd (congrArg List.length hb) (by simpa using h0)
      · intro hb
        simp [on_stdin_ready, h0, hb]

/-- Lemma: a line just entered is present in the resulting history store. -/
theorem mem_histEnter_self (hs : List Str) (line : Str) : line ∈ histEnter 100 hs line := by
  unfold histEnter
  split
  · next heq =>
    cases hs with
    | nil => simp at heq
    | cons x t =>
      simp only [List.head?_cons, Option.some.injEq] at heq
      exact heq ▸ List.mem_cons_self x t
  · have htk : (line :: hs).take 100 = line :: hs.take 99 := rfl
    rw [htk]
    exact List.mem_cons_self line _

/-- Claim C7: dispatching a line of more than one character whose first token
starts with the marker but matches no registered command prints the
unknown-command message naming the stripped token, invokes no handler, and
the line has still been recorded in history. -/
theorem unknown_command_spec (cmds : List EvCmd) (h : List Str) (buf a : Str)
    (rest : List Str) (ha : a.head? = some '/')
    (hmiss : ∀ c ∈ cmds, ¬ c.name = a.drop 1) (hlen : 1 < buf.length) :
    (on_stdin_ready cmds h buf (some (a :: rest))).ran =
      some ⟨none, '\n' :: ("Unknown command '".toList ++ (a.drop 1 ++ "'\n".toList))⟩ ∧
    buf ∈ (on_stdin_ready cmds h buf (some (a :: rest))).hist := by
  have h0 : ¬ buf.length = 0 := by omega
  have hfind : cmds.find? (fun c => c.name == a.tail) = none := by
    rw [List.find?_eq_none]
    intro c hc
    have hm := hmiss c hc
    rw [List.drop_one] at hm
    simpa using hm
  constructor
  · simp [on_stdin_ready, h0, ha, run_command, hfind]
  · simp only [on_stdin_ready, h0, hlen, if_true]
    simpa [h0, hlen] using mem_histEnter_self h buf

/-- Claim C6 (amended): every reachable history store holds at most the
configured 100 entries; entering a line equal to the most recent entry leaves
the store unchanged, while entering any other line prepends it and keeps only
the 100 most recent entries (oldest evicted first) - a line equal to an older
entry is entered again rather than moved. -/
theorem history_bound_spec :
    (∀ hs : List Str, ReachableHist hs → hs.length ≤ 100) ∧
    (∀ (hs : List Str) (line : Str), hs.head? = some line →
      histEnter 100 hs line = hs) ∧
    (∀ (hs : List Str) (line : Str), ¬ hs.head? = some line →
      histEnter 100 hs line = (line :: hs).take 100) := by
  refine ⟨?_, ?_, ?_⟩
  · intro hs hr
    induction hr with
    | start => simp
    | step cmds buf tokRes hr ih =>
      rename_i h
      cases tokRes with
      | none => simpa [on_stdin_ready] using ih
      | some av =>
        by_cases h0 : buf.length = 0
        · simpa [on_stdin_ready, h0] using ih
        · by_cases h1 : 1 < buf.length
          · have hh : (on_stdin_ready cmds h buf (some av)).hist = histEnter 100 h buf := by
              simp [on_stdin_ready, h0, h1]
            rw [hh]
            unfold histEnter
            split
            · exact ih
            · simp [List.length_take]
          · simpa [on_stdin_ready, h0, h1] using ih
  · intro hs line hh
    simp [histEnter, hh]
  · intro hs line hh
    simp [histEnter, hh]

/-- Claim C8: when the dispatched handler returns no output buffer, the error
it set is printed between the red and default colour escapes; when it set no
error, the generic internal-error notice is printed in the same colours; a
handler returning an empty output buffer prints nothing. -/
theorem handler_failure_render_spec (cmds : List EvCmd) (a : Str) (rest : List Str)
    (c : EvCmd) (hfind : cmds.find? (fun x => x.name == a.drop 1) = some c) :
    (c.func rest = (none, none) →
      run_command cmds (a :: rest) =
        ⟨some c.name,
          escRed ++ ("Internal error - Command failed to set error\n".toList ++ escDefault)⟩) ∧
    (∀ m : Str, c.func rest = (none, some m) →
      run_command cmds (a :: rest) =
        ⟨some c.name, escRed ++ ("Command failed: ".toList ++ (m ++ ('\n' :: escDefault)))⟩) ∧
    (∀ e : Option Str, c.func rest = (some [], e) →
      run_command cmds (a :: rest) = ⟨some c.name, []⟩) := by
  rw [List.drop_one] at hfind
  refine ⟨?_, ?_, ?_⟩
  · intro hf
    simp [run_command, hfind, hf]
  · intro m hf
    simp [run_command, hfind, hf]
  · intro e hf
    simp [run_command, hfind, hf]

/-- Lemma: a registry scan resolves a name to the first descriptor carrying
it, also in the presence of a later duplicate. -/
theorem find_first_dup (t : List EvCmd) (c d : EvCmd)
    (ht : ∀ x ∈ t, ¬ x.name = c.name) :
    (t ++ [c, d]).find? (fun x => x.name == c.name) = some c := by
  induction t with
  | nil => simp [List.find?]
  | cons e t ih =>
    have he : ¬ (e.name == c.name) = true := by
      simpa using ht e (by simp)
    rw [List.cons_append,
      @List.find?_cons_of_neg _ (fun x => x.name == c.name) e (t ++ [c, d]) he]
    exact ih (fun x hx => ht x (by simp [hx]))

/-- Claim C9 (amended): registration performs no duplicate-name check -
ev_prompt_init accepts any first-time registry, so startup completes with
both same-named descriptors registered, and lookups resolve to the first. -/
theorem registration_no_dup_check_spec (registry : List EvCmd) (c d : EvCmd)
    (_hdup : c.name = d.name) (hfresh : ∀ e ∈ registry, ¬ e.name = c.name) :
    ev_prompt_init none (add_commands registry [c, d]) = some (registry ++ [c, d]) ∧
    ev_cmds_get (add_commands registry [c, d]) c.name = some c := by
  exact ⟨rfl, find_first_dup registry c d hfresh⟩

/-- Claim C3, counterexample: with command help registered and the line
/help fully typed (cursor offset 5), the request yields exactly one candidate
yet returns CC_ERROR with nothing inserted and the line unchanged, not the
claimed suffix-plus-space insertion and refresh. -/
theorem single_candidate_full_word_counterexample :
    (complete [sampleHelp] ⟨"/help".toList, 5⟩ ["/help".toList] 0 5).candidates =
      some ["/help".toList] ∧
    (complete [sampleHelp] ⟨"/help".toList, 5⟩ ["/help".toList] 0 5).ret = CCode.error ∧
    (complete [sampleHelp] ⟨"/help".toList, 5⟩ ["/help".toList] 0 5).st =
      ⟨"/help".toList, 5⟩ ∧
    (complete [sampleHelp] ⟨"/help".toList, 5⟩ ["/help".toList] 0 5).printed = [] ∧
    ¬ CCode.error = CCode.refresh := by
  refine ⟨by decide, by decide, by decide, by decide, by decide⟩

/-- Claim C4, counterexample: the submitted non-marker line hi is not
dispatched, but it is recorded into the history store, which the claim says
must stay unchanged. -/
theorem nonmarker_line_recorded_counterexample :
    (on_stdin_ready [] [] "hi\n".toList (some ["hi".toList])).ran = none ∧
    (on_stdin_ready [] [] "hi\n".toList (some ["hi".toList])).hist = ["hi\n".toList] ∧
    ¬ (["hi\n".toList] : List Str) = [] := by
  refine ⟨by decide, by decide, by decide⟩

/-- Claim C6, counterexample: from the reachable store holding aa then bb,
re-entering aa (present but not most recent) grows the store to three entries
with a duplicate instead of moving the line. -/
theorem history_duplicate_counterexample :
    ReachableHist ["bb\n".toList, "aa\n".toList] ∧
    histEnter 100 ["bb\n".toList, "aa\n".toList] "aa\n".toList =
      ["aa\n".toList, "bb\n".toList, "aa\n".toList] ∧
    ¬ (["aa\n".toList, "bb\n".toList, "aa\n".toList] : List Str).length =
      (["bb\n".toList, "aa\n".toList] : List Str).length := by
  refine ⟨?_, by decide, by decide⟩
  have h1 : ReachableHist ["aa\n".toList] :=
    ReachableHist.step [] "aa\n".toList (some []) ReachableHist.start
  exact ReachableHist.step [] "bb\n".toList (some []) h1

/-- Claim C9, counterexample: registering the same command twice completes
startup with both copies in the registry; no duplicate-name check fires. -/
theorem duplicate_registration_counterexample :
    (ev_prompt_init none (add_commands (add_commands [] [sampleHelp]) [sampleHelp])).map
      (fun l => l.map EvCmd.name) = some ["help".toList, "help".toList] ∧
    (ev_prompt_init none (add_commands (add_commands [] [sampleHelp]) [sampleHelp])).isSome =
      true := by
  exact ⟨rfl, rfl⟩

/-- Witness for claim C1 at the line /h with two registered commands. -/
theorem cmd_name_completion_spec_witness :
    ("/h".toList.head? = some '/' ∧ 1 ≤ 2 ∧ 2 ≤ "/h".toList.length ∧ 2 < 2 ^ 31) ∧
    (complete [sampleHelp, sampleHistory] ⟨"/h".toList, 2⟩ ["/h".toList] 0 2).candidates =
      some ["/help".toList, "/history".toList] := by
  refine ⟨⟨by decide, by decide, by decide, by norm_num⟩, ?_⟩
  rw [(cmd_name_completion_spec [sampleHelp, sampleHistory] ⟨"/h".toList, 2⟩ "/h".toList 2
    (by decide) (by decide) (by decide) (by norm_num)).1]
  decide

/-- Witness for claim C2 completing the first option of /room-details. -/
theorem option_completion_spec_witness :
    (1 ≤ 1 ∧ "/room-details".toList.head? = some '/') ∧
    (complete [sampleRoomDetails] ⟨"/room-details !".toList, 15⟩
      ["/room-details".toList, "!".toList] 1 1).invoked =
      [("room-details".toList, 0, "!".toList, 1)] ∧
    (complete [sampleRoomDetails] ⟨"/room-details !".toList, 15⟩
      ["/room-details".toList, "!".toList] 1 1).candidates =
      some ["!abc:example.org".toList] := by
  have h := (option_completion_spec [sampleRoomDetails] ⟨"/room-details !".toList, 15⟩
    "/room-details".toList ["!".toList] 1 1 (by decide) (by decide)).1
    sampleRoomIdOpt sampleCompleter rfl rfl
  exact ⟨⟨by decide, by decide⟩, by rw [h.1]; decide, by rw [h.2]; decide⟩

/-- Witness for claim C10 at the marker-less single-token line hi. -/
theorem nonmarker_completion_spec_witness :
    ((["hi".toList] : List Str).length < 2) ∧
    complete [] ⟨"hi".toList, 2⟩ ["hi".toList] 0 2 =
      ⟨[], none, ⟨"hi".toList, 2⟩, [], CCode.error⟩ := by
  refine ⟨by decide, ?_⟩
  exact nonmarker_completion_spec [] ⟨"hi".toList, 2⟩ ["hi".toList] 2 (by decide)
    (by intro a r hh; cases hh; decide)

/-- Witness for claim C3's amended theorem at concrete candidate sets of
size zero, one (empty and non-empty suffix) and two. -/
theorem print_or_insert_spec_witness :
    print_or_insert_completions ⟨"/x a".toList, 4⟩ none 1 =
      (⟨"/x a".toList, 4⟩, [], CCode.error) ∧
    print_or_insert_completions ⟨"/x a".toList, 4⟩ (some ["aa".toList, "bb".toList]) 1 =
      (⟨"/x a".toList, 4⟩, '\n' :: (printEach ["aa".toList, "bb".toList] ++ ['\n']),
        CCode.redisplay) ∧
    print_or_insert_completions ⟨"/x a".toList, 4⟩ (some ["a".toList]) 1 =
      (⟨"/x a".toList, 4⟩, [], CCode.error) ∧
    print_or_insert_completions ⟨"/x a".toList, 4⟩ (some ["ab".toList]) 1 =
      (⟨"/x a".toList.take 4 ++ ("ab".toList.drop 1 ++ [' ']) ++ "/x a".toList.drop 4,
        4 + ("ab".toList.length - 1) + 1⟩, [], CCode.refresh) := by
  have h := print_or_insert_spec ⟨"/x a".toList, 4⟩ 1
  exact ⟨h.1, h.2.2.1 ["aa".toList, "bb".toList] (by decide),
    h.2.2.2.1 "a".toList (by decide), h.2.2.2.2 "ab".toList (by decide) (by decide)⟩

/-- Witness for claim C4's amended theorem at the submitted line hi. -/
theorem submit_nonmarker_spec_witness :
    (on_stdin_ready [] [] "hi\n".toList (some ["hi".toList])).ran = none ∧
    (on_stdin_ready [] [] "hi\n".toList (some ["hi".toList])).reset = true ∧
    ("hi\n".toList = ([] : Str) →
      (on_stdin_ready [] [] "hi\n".toList (some ["hi".toList])).hist = []) ∧
    (1 < ("hi\n".toList : Str).length →
      (on_stdin_ready [] [] "hi\n".toList (some ["hi".toList])).hist =
        histEnter 100 [] "hi\n".toList) :=
  submit_nonmarker_spec [] [] "hi\n".toList ["hi".toList]
    (Or.inr (by intro a r hh; cases hh; decide))

/-- Witness for claim C5 at an empty and a two-character submitted line. -/
theorem record_short_line_spec_witness :
    (("\n".toList : Str).length ≤ 1 ∧
      (on_stdin_ready [] [] "\n".toList (some [])).hist = []) ∧
    (1 < ("ab\n".toList : Str).length ∧
      (on_stdin_ready [] [] "ab\n".toList (some ["ab".toList])).hist =
        histEnter 100 [] "ab\n".toList) := by
  refine ⟨⟨by decide, (record_short_line_spec [] [] "\n".toList []).1 (by decide)⟩,
    ⟨by decide, (record_short_line_spec [] [] "ab\n".toList ["ab".toList]).2 (by decide)⟩⟩

/-- Witness for claim C6's amended theorem at the empty reachable store and
at singleton stores. -/
theorem history_bound_spec_witness :
    (([] : List Str).length ≤ 100) ∧
    histEnter 100 ["aa\n".toList] "aa\n".toList = ["aa\n".toList] ∧
    histEnter 100 ["bb\n".toList] "aa\n".toList = ("aa\n".toList :: ["bb\n".toList]).take 100 :=
  ⟨history_bound_spec.1 [] ReachableHist.start,
   history_bound_spec.2.1 ["aa\n".toList] "aa\n".toList (by decide),
   history_bound_spec.2.2 ["bb\n".toList] "aa\n".toList (by decide)⟩

/-- Witness for claim C7 dispatching /bogus against an empty registry. -/
theorem unknown_command_spec_witness :
    (on_stdin_ready [] [] "/bogus\n".toList (some ["/bogus".toList])).ran =
      some ⟨none, '\n' :: ("Unknown command '".toList ++
        ("/bogus".toList.drop 1 ++ "'\n".toList))⟩ ∧
    "/bogus\n".toList ∈ (on_stdin_ready [] [] "/bogus\n".toList (some ["/bogus".toList])).hist :=
  unknown_command_spec [] [] "/bogus\n".toList "/bogus".toList [] (by decide)
    (by intro c hc; exact absurd hc (List.not_mem_nil c)) (by decide)

/-- Witness for claim C8 at handlers failing with and without an error set
and succeeding with empty output. -/
theorem handler_failure_render_spec_witness :
    run_command [sampleFailSilent] ["/bad".toList] =
      ⟨some "bad".toList,
        escRed ++ ("Internal error - Command failed to set error\n".toList ++ escDefault)⟩ ∧
    run_command [sampleFailErr] ["/fail".toList] =
      ⟨some "fail".toList,
        escRed ++ ("Command failed: ".toList ++ ("boom".toList ++ ('\n' :: escDefault)))⟩ ∧
    run_command [sampleEmptyOut] ["/ok".toList] = ⟨some "ok".toList, []⟩ := by
  refine ⟨?_, ?_, ?_⟩
  · exact (handler_failure_render_spec [sampleFailSilent] "/bad".toList []
      sampleFailSilent rfl).1 rfl
  · exact (handler_failure_render_spec [sampleFailErr] "/fail".toList []
      sampleFailErr rfl).2.1 "boom".toList rfl
  · exact (handler_failure_render_spec [sampleEmptyOut] "/ok".toList []
      sampleEmptyOut rfl).2.2 none rfl

/-- Witness for claim C9's amended theorem registering help twice after
history. -/
theorem registration_no_dup_check_spec_witness :
    ev_prompt_init none (add_commands [sampleHistory] [sampleHelp, sampleHelp]) =
      some ([sampleHistory] ++ [sampleHelp, sampleHelp]) ∧
    ev_cmds_get (add_commands [sampleHistory] [sampleHelp, sampleHelp]) sampleHelp.name =
      some sampleHelp :=
  registration_no_dup_check_spec [sampleHistory] sampleHelp sampleHelp rfl
    (by intro e he
        rw [List.mem_singleton] at he
        subst he
        decide)

end Ev
